import Mathlib

/-!
Verification of the `fix-this-mess` file-organizer agent (`src/index.js`).

The JavaScript source is shallowly embedded:

* the filesystem is an association list from path strings to entries
  (regular file with content, or directory); Node's `fs` calls
  (`existsSync`, `readdirSync`, `statSync().isFile()`, `mkdirSync` with
  `recursive: true`, `renameSync`, `writeFileSync`) become explicit
  state-passing functions over that list, with `readdirSync` returning
  `Except` so that a raised `ENOTDIR`/`ENOENT` is visible;
* Node's `path` helpers (`join`, `extname`, `basename`) and the
  JavaScript string operation `slice(0, -n)` (including the
  `slice(0, -0) = ""` behaviour when `n = 0`) are modelled over
  `List Char`, with a POSIX `/` separator;
* `Date.now()` becomes an explicit `now : Nat` parameter;
* the tool-calling loop of `runAgent` becomes a recursion over an oracle
  list of model responses: one response is consumed per model request,
  and an exhausted oracle (a model that never answers) is an error
  distinct from normal termination;
* a thrown JavaScript exception (unknown tool name, `ENOTDIR`, missing
  argument) is an `Except.error` that aborts the run.
-/

/-! ## Characters, strings and paths -/

/-- JavaScript `String.prototype.toLowerCase` restricted to ASCII, which is
all the program compares (`"yes"`, `"y"`, shortcut keywords). -/
def lowerStr (s : String) : String := String.mk (s.data.map Char.toLower)

/-- JavaScript `str.split(sep)` for a one-character separator, on char lists:
`splitOnChar c l` never returns `[]` and keeps empty segments. -/
def splitOnChar (c : Char) : List Char → List (List Char)
  | [] => [[]]
  | a :: rest =>
    let r := splitOnChar c rest
    if a = c then [] :: r
    else
      match r with
      | [] => [[a]]
      | h :: t => (a :: h) :: t

/-- The suffix of `l` after the last occurrence of `c` (all of `l` when `c`
does not occur). -/
def afterLast (c : Char) (l : List Char) : List Char :=
  (l.reverse.takeWhile (fun a => a != c)).reverse

/-- Node `path.basename` for paths without trailing separators: the part of
the path after the last `/`. -/
def basename (p : String) : String := String.mk (afterLast '/' p.data)

/-- Node `path.extname` on a basename, as a char list: the suffix starting at
the last `.`, except that a name with no dot, a name whose only dot is the
leading character (`.bashrc`), and the special name `..` have no extension. -/
def extnameChars (b : List Char) : List Char :=
  if b = ['.', '.'] then []
  else
    let r := b.reverse
    match r.dropWhile (fun a => a != '.') with
    | [] => []
    | [_] => []
    | _ :: _ :: _ => '.' :: (r.takeWhile (fun a => a != '.')).reverse

/-- Node `path.extname`: the extension of the path's basename. -/
def extname (p : String) : String := String.mk (extnameChars (afterLast '/' p.data))

/-- JavaScript `s.slice(0, -n)`. When `n = 0` the call is `s.slice(0, -0)`,
and `-0` is `0`, so the result is the empty string; otherwise the last `n`
characters are dropped (all of them when `n ≥ s.length`). -/
def sliceNeg (s : String) (n : Nat) : String :=
  if n = 0 then "" else String.mk (s.data.take (s.data.length - n))

/-- Node `path.join` for the simple two-argument, already-normalised uses in
the source. -/
def pathJoin (a b : String) : String := a ++ "/" ++ b

/-- JavaScript `array.join(sep)`. -/
def joinWith (sep : String) : List String → String
  | [] => ""
  | [s] => s
  | s :: rest => s ++ sep ++ joinWith sep rest

/-- Strips `pre` from the front of `l`, returning the remainder when `pre`
is a prefix. -/
def stripPrefixList : List Char → List Char → Option (List Char)
  | [], l => some l
  | _ :: _, [] => none
  | a :: as, b :: bs => if a = b then stripPrefixList as bs else none

instance {ε α : Type} [DecidableEq ε] [DecidableEq α] : DecidableEq (Except ε α)
  | .error a, .error b => decidable_of_iff (a = b) (by simp)
  | .error _, .ok _ => isFalse (by simp)
  | .ok _, .error _ => isFalse (by simp)
  | .ok a, .ok b => decidable_of_iff (a = b) (by simp)

/-! ## Filesystem model -/

/-- A filesystem entry: a regular file with its textual content, or a
directory. -/
inductive FSEntry where
  | file (content : String)
  | dir
deriving DecidableEq

/-- The filesystem: an association list from absolute path to entry.  List
order is the directory-enumeration order `readdirSync` reports. -/
abbrev FS := List (String × FSEntry)

/-- The entry at a path: the first binding for that path, if any. -/
def FS.findPath : FS → String → Option FSEntry
  | [], _ => none
  | kv :: rest, p => if kv.1 = p then some kv.2 else FS.findPath rest p

/-- Node `fs.existsSync`. -/
def existsSync (fs : FS) (p : String) : Bool := (FS.findPath fs p).isSome

/-- Node `fs.statSync(p).isFile()` for a path known to exist. -/
def statIsFile (fs : FS) (p : String) : Bool :=
  match FS.findPath fs p with
  | some (FSEntry.file _) => true
  | _ => false

/-- The name `n` such that `p = d ++ "/" ++ n` and `n` is a direct child
name (nonempty, no further separator), if any. -/
def childName (d p : String) : Option String :=
  match stripPrefixList (d.data ++ ['/']) p.data with
  | some rest => if rest ≠ [] ∧ '/' ∉ rest then some (String.mk rest) else none
  | none => none

/-- The direct child names of directory `d`, in filesystem order. -/
def childNames (fs : FS) (d : String) : List String :=
  fs.filterMap (fun kv => childName d kv.1)

/-- Node `fs.readdirSync`: the child names of a directory; raises `ENOTDIR`
on a regular file and `ENOENT` on a missing path. -/
def readdirSync (fs : FS) (d : String) : Except String (List String) :=
  match FS.findPath fs d with
  | some FSEntry.dir => .ok (childNames fs d)
  | some (FSEntry.file _) => .error ("ENOTDIR: not a directory, scandir " ++ d)
  | none => .error ("ENOENT: no such file or directory, scandir " ++ d)

/-- Sets the entry at `p`, overwriting an existing binding in place and
appending a new binding otherwise (Node `fs.writeFileSync` semantics at the
level of this model). -/
def writeEntry (fs : FS) (p : String) (e : FSEntry) : FS :=
  if existsSync fs p then fs.map (fun kv => if kv.1 = p then (p, e) else kv)
  else fs ++ [(p, e)]

/-- Removes every binding for `p`. -/
def eraseKey : FS → String → FS
  | [], _ => []
  | kv :: rest, p => if kv.1 = p then eraseKey rest p else kv :: eraseKey rest p

/-- Node `fs.renameSync source destination` for an existing source: the
entry leaves `source` and lands at `destination`. -/
def renameSync (fs : FS) (source destination : String) : FS :=
  match FS.findPath fs source with
  | some e => writeEntry (eraseKey fs source) destination e
  | none => fs

/-- The `/`-separated prefixes of a path, shortest first, ending with the
path itself: the chain of directories `mkdirSync { recursive: true }`
ensures. -/
def pathPrefixes (p : String) : List String :=
  let comps := (splitOnChar '/' p.data).map String.mk
  ((List.range (comps.length - 1)).map
    (fun i => joinWith "/" (comps.take (i + 1)))) ++ [p]

/-- The walk `fs.mkdirSync(p, { recursive: true })` performs over the
`/`-prefixes of `p`, shortest first: an existing directory is left alone, a
missing prefix is created as a directory, and a prefix that exists as a
regular file raises — `EEXIST` when it is the final component, `ENOTDIR`
when an intermediate component is a file. -/
def mkdirWalk : FS → List String → Except String FS
  | acc, [] => .ok acc
  | acc, q :: rest =>
    match FS.findPath acc q with
    | some FSEntry.dir => mkdirWalk acc rest
    | some (FSEntry.file _) =>
      if rest.isEmpty then .error ("EEXIST: file already exists, mkdir " ++ q)
      else .error ("ENOTDIR: not a directory, mkdir " ++ q)
    | none => mkdirWalk (acc ++ [(q, FSEntry.dir)]) rest

/-- Node `fs.mkdirSync(p, { recursive: true })`: creates every missing
prefix of `p` as a directory, leaving existing directories alone, and
raises when a prefix exists as a regular file. -/
def mkdirRecursive (fs : FS) (p : String) : Except String FS :=
  mkdirWalk fs (pathPrefixes p)

/-! ## The four tools (`src/index.js` lines 65-93) -/

/-- `list_files({ directory })`: soft-fails with a "not found" string on a
missing path, otherwise joins the names of the regular-file children with
newlines, or reports "No files found." when there are none.  A raised
filesystem error (`ENOTDIR` on a non-directory) propagates as `.error`. -/
def list_files (fs : FS) (directory : String) : Except String String :=
  if !existsSync fs directory then .ok ("Directory not found: " ++ directory)
  else
    match readdirSync fs directory with
    | .error e => .error e
    | .ok entries =>
      let items := entries.filter (fun f => statIsFile fs (pathJoin directory f))
      .ok (if items.length > 0 then joinWith "\n" items else "No files found.")

/-- `create_folder({ folder_path })`: reports "already exists" and does
nothing when the path exists (as anything), otherwise creates it
recursively.  A raised `mkdirSync` error (an intermediate prefix that is a
regular file) propagates as `.error`. -/
def create_folder (fs : FS) (folder_path : String) : Except String (String × FS) :=
  if existsSync fs folder_path then .ok ("Folder already exists: " ++ folder_path, fs)
  else
    match mkdirRecursive fs folder_path with
    | .error e => .error e
    | .ok fs' => .ok ("Created folder: " ++ folder_path, fs')

/-- `move_file({ source, destination })` with `Date.now()` passed in as
`now`: soft-fails when the source is missing; when the destination exists,
rebinds `destination` to
`destination.slice(0, -extname(destination).length) ++ "_" ++ now ++ ext`
before renaming. -/
def move_file (fs : FS) (now : Nat) (source destination : String) : String × FS :=
  if !existsSync fs source then ("Source file not found: " ++ source, fs)
  else
    let destination' :=
      if existsSync fs destination then
        let ext := extname destination
        let base := sliceNeg destination ext.length
        base ++ "_" ++ toString now ++ ext
      else destination
    ("Moved: " ++ basename source ++ " -> " ++ destination',
      renameSync fs source destination')

/-- `write_report({ report_path, content })`: overwrites `report_path` with
`content`. -/
def write_report (fs : FS) (report_path content : String) : String × FS :=
  ("Report saved to: " ++ report_path, writeEntry fs report_path (FSEntry.file content))

/-! ## Tool registry and conversation state (`src/index.js` lines 95-212) -/

/-- The argument payload of a tool call, as produced by
`JSON.parse(toolCall.function.arguments)`: a JSON object whose recognised
string fields may each be absent (`none` models a missing field, which the
destructuring JavaScript functions would receive as `undefined`). -/
structure ToolArgs where
  directory : Option String := none
  folder_path : Option String := none
  source : Option String := none
  destination : Option String := none
  report_path : Option String := none
  content : Option String := none
deriving DecidableEq

/-- One tool-invocation request from the model: `toolCall.id`,
`toolCall.function.name`, and the parsed argument payload. -/
structure ToolCall where
  id : String
  name : String
  arguments : ToolArgs
deriving DecidableEq

/-- Message roles of the chat transcript. -/
inductive Role where
  | system
  | user
  | assistant
  | tool
deriving DecidableEq

/-- One transcript message.  `tool_call_id` links a `tool` message back to
the invocation that produced it; `tool_calls` is empty on every message the
loop itself constructs and carries the requests on an assistant message. -/
structure Message where
  role : Role
  content : Option String
  tool_calls : List ToolCall := []
  tool_call_id : Option String := none
deriving DecidableEq

/-- One assistant response from the model API: free text and/or tool-call
requests (an absent `tool_calls` field is the empty list). -/
structure AssistantResponse where
  content : Option String
  tool_calls : List ToolCall
deriving DecidableEq

/-- The assistant message pushed onto the transcript for a response. -/
def AssistantResponse.toMessage (r : AssistantResponse) : Message :=
  { role := Role.assistant, content := r.content, tool_calls := r.tool_calls }

/-- The registry `toolFunctions = { list_files, create_folder, move_file,
write_report }`: name lookup yields the callable, or `none` on a miss (the
JavaScript property access would yield `undefined`).  Each callable adapts
the destructuring tool to the payload: a missing required field models the
`TypeError` Node raises when `undefined` reaches the `fs` call. -/
def toolFunctions (name : String) :
    Option (ToolArgs → Nat → FS → Except String (String × FS)) :=
  if name = "list_files" then
    some (fun a _ fs =>
      match a.directory with
      | some d => (list_files fs d).map (fun s => (s, fs))
      | none => .error "TypeError: the path argument must be of type string")
  else if name = "create_folder" then
    some (fun a _ fs =>
      match a.folder_path with
      | some p => create_folder fs p
      | none => .error "TypeError: the path argument must be of type string")
  else if name = "move_file" then
    some (fun a now fs =>
      match a.source, a.destination with
      | some s, some d => .ok (move_file fs now s d)
      | _, _ => .error "TypeError: the path argument must be of type string")
  else if name = "write_report" then
    some (fun a _ fs =>
      match a.report_path, a.content with
      | some p, some c => .ok (write_report fs p c)
      | _, _ => .error "TypeError: the path argument must be of type string")
  else none

/-- How a run of the loop can abort: a tool name missing from the registry
(the `toolFunctions[name](args)` call raises `TypeError`), a tool raising,
or a model that never produces another response (the oracle of responses is
exhausted while the loop still awaits one). -/
inductive AgentError where
  | unknownTool (name : String)
  | toolThrew (e : String)
  | modelSilent
deriving DecidableEq

/-- The tool-result message pushed for invocation `id` with stringified
result `r` (`String(result)` is the identity here: results are strings). -/
def toolResultMessage (id r : String) : Message :=
  { role := Role.tool, content := some r, tool_call_id := some id }

/-- The `for (const toolCall of message.tool_calls)` body: executes the
requested invocations left to right, pushing one tool-result message per
invocation; a registry miss or a raised tool error aborts. -/
def execToolCalls (now : Nat) : List ToolCall → List Message → FS →
    Except AgentError (List Message × FS)
  | [], msgs, fs => .ok (msgs, fs)
  | tc :: rest, msgs, fs =>
    match toolFunctions tc.name with
    | none => .error (AgentError.unknownTool tc.name)
    | some f =>
      match f tc.arguments now fs with
      | .error e => .error (AgentError.toolThrew e)
      | .ok (r, fs') =>
        execToolCalls now rest (msgs ++ [toolResultMessage tc.id r]) fs'

/-- Specification-side view of a batch: the stringified results of running
the requested tools strictly sequentially, in the order listed, threading
the filesystem through. -/
def seqResults (now : Nat) : List ToolCall → FS →
    Except AgentError (List String × FS)
  | [], fs => .ok ([], fs)
  | tc :: rest, fs =>
    match toolFunctions tc.name with
    | none => .error (AgentError.unknownTool tc.name)
    | some f =>
      match f tc.arguments now fs with
      | .error e => .error (AgentError.toolThrew e)
      | .ok (r, fs') =>
        match seqResults now rest fs' with
        | .error e => .error e
        | .ok (rs, fsf) => .ok (r :: rs, fsf)

/-- The tool-result messages for a batch, pairing each request with its
result in order. -/
def toolResultMessages (tcs : List ToolCall) (rs : List String) : List Message :=
  (tcs.zip rs).map (fun p => toolResultMessage p.1.id p.2)

/-- The `while (true)` loop of `runAgent`: consumes one oracle response per
model request, pushes the assistant message, stops when it carries no
tool-call requests (its content is the final summary), and otherwise
executes the batch and loops. -/
def runLoop (now : Nat) : List AssistantResponse → List Message → FS →
    Except AgentError (List Message × FS × Option String)
  | [], _, _ => .error AgentError.modelSilent
  | resp :: rest, msgs, fs =>
    let msgs' := msgs ++ [resp.toMessage]
    if resp.tool_calls.isEmpty then .ok (msgs', fs, resp.content)
    else
      match execToolCalls now resp.tool_calls msgs' fs with
      | .error e => .error e
      | .ok (msgs'', fs') => runLoop now rest msgs'' fs'

/-- The system prompt of `runAgent` (lines 164-170). -/
def systemPrompt : String :=
  "You are a file organization agent. When given a folder to organize:\n1. First list the files to see what is there\n2. Group similar file types and create appropriate subfolders such as Images, Documents, Videos, Audio, Code, Archives, Spreadsheets, Other\n3. Move each file into the right subfolder\n4. Only create folders that are actually needed based on what files exist\n5. Never move or delete folders, only files\n6. Finally write a report called organization_report.txt in the target folder summarizing what you did"

/-- The seed transcript of `runAgent` (lines 161-176). -/
def initialMessages (targetDirectory : String) : List Message :=
  [{ role := Role.system, content := some systemPrompt },
   { role := Role.user,
     content := some ("Please organize the files in this folder: " ++ targetDirectory) }]

/-- `runAgent(targetDirectory)`: the loop started on the seed transcript. -/
def runAgent (now : Nat) (responses : List AssistantResponse)
    (targetDirectory : String) (fs : FS) :
    Except AgentError (List Message × FS × Option String) :=
  runLoop now responses (initialMessages targetDirectory) fs

/-! ## CLI surface (`src/index.js` lines 8-13 and 214-255) -/

/-- The answers the user types at the four prompts of `main`. -/
structure Prompts where
  input : String
  confirm : String
  fullPath : String
  confirmFull : String
deriving DecidableEq

/-- The affirmative test of `main`:
`answer.toLowerCase() === "yes" || answer.toLowerCase() === "y"`. -/
def isYes (answer : String) : Bool :=
  lowerStr answer = "yes" || lowerStr answer = "y"

/-- `resolvePath(input)` (lines 30-63) over the modelled filesystem, with
the home directory passed in for `os.homedir()`: shortcut keywords first,
then the literal input, then OneDrive Desktop, Desktop and home joins. -/
def resolvePath (fs : FS) (home input : String) : Option String :=
  let lower := lowerStr input
  let shortcuts : List (String × List String) :=
    [("desktop", [pathJoin (pathJoin home "OneDrive") "Desktop",
                  pathJoin home "Desktop"]),
     ("downloads", [pathJoin home "Downloads"]),
     ("documents", [pathJoin home "Documents"]),
     ("pictures", [pathJoin home "Pictures"]),
     ("videos", [pathJoin home "Videos"]),
     ("music", [pathJoin home "Music"])]
  let fromShortcut :=
    match shortcuts.lookup lower with
    | some ps => ps.find? (fun p => existsSync fs p)
    | none => none
  match fromShortcut with
  | some p => some p
  | none =>
    if existsSync fs input then some input
    else
      let onOneDriveDesktop := pathJoin (pathJoin (pathJoin home "OneDrive") "Desktop") input
      if existsSync fs onOneDriveDesktop then some onOneDriveDesktop
      else
        let onDesktop := pathJoin (pathJoin home "Desktop") input
        if existsSync fs onDesktop then some onDesktop
        else
          let inHome := pathJoin home input
          if existsSync fs inHome then some inHome
          else none

/-- How `main` leaves the process before or instead of running the agent:
an explicit `process.exit(code)`, or a call of `runAgent` on a directory. -/
inductive MainOutcome where
  | exited (code : Nat)
  | organized (dir : String)
deriving DecidableEq

/-- `main()` (lines 214-253) as a decision function over the prompt
answers: unresolvable input exits 1; an affirmative first confirmation runs
the agent on the resolved path; otherwise the fallback path prompt exits 1
when missing, runs the agent when confirmed, and exits 0 on "Cancelled.". -/
def mainFlow (fs : FS) (home : String) (pr : Prompts) : MainOutcome :=
  match resolvePath fs home pr.input with
  | none => MainOutcome.exited 1
  | some resolved =>
    if isYes pr.confirm then MainOutcome.organized resolved
    else if !existsSync fs pr.fullPath then MainOutcome.exited 1
    else if isYes pr.confirmFull then MainOutcome.organized pr.fullPath
    else MainOutcome.exited 0

/-- The whole program: the module-level `GROQ_API_KEY` check (lines 8-13)
exits 1 before any model interaction, then `main` runs. -/
def program (hasApiKey : Bool) (fs : FS) (home : String) (pr : Prompts) : MainOutcome :=
  if !hasApiKey then MainOutcome.exited 1 else mainFlow fs home pr

/-- The process exit code: an explicit `process.exit` code, `0` when the
script runs the agent to completion, and `none` when the agent aborts (an
unhandled rejection, outside the exit-code contract modelled here). -/
def processExitCode (hasApiKey : Bool) (fs : FS) (home : String) (pr : Prompts)
    (now : Nat) (responses : List AssistantResponse) : Option Nat :=
  match program hasApiKey fs home pr with
  | MainOutcome.exited c => some c
  | MainOutcome.organized dir =>
    match runAgent now responses dir fs with
    | .ok _ => some 0
    | .error _ => none

/-! ## Auxiliary facts about the filesystem model -/

theorem strData_inj {s t : String} (h : s.data = t.data) : s = t := by
  cases s
  cases t
  exact congrArg String.mk h

theorem findPath_append (l₁ l₂ : FS) (p : String) :
    FS.findPath (l₁ ++ l₂) p =
      (match FS.findPath l₁ p with
       | some e => some e
       | none => FS.findPath l₂ p) := by
  induction l₁ with
  | nil => simp [FS.findPath]
  | cons kv rest ih =>
    by_cases h : kv.1 = p <;> simp [FS.findPath, h, ih]

theorem findPath_none_iff (fs : FS) (p : String) :
    FS.findPath fs p = none ↔ p ∉ fs.map Prod.fst := by
  induction fs with
  | nil => simp [FS.findPath]
  | cons kv rest ih =>
    by_cases h : kv.1 = p
    · simp [FS.findPath, h]
    · simp only [FS.findPath, h, if_false, ih, List.map_cons, List.mem_cons, not_or]
      exact ⟨fun hn => ⟨fun hp => h hp.symm, hn⟩, fun hp => hp.2⟩

theorem findPath_of_mem_nodup {fs : FS} {p : String} {e : FSEntry}
    (hnd : (fs.map Prod.fst).Nodup) (hm : (p, e) ∈ fs) :
    FS.findPath fs p = some e := by
  induction fs with
  | nil => simp at hm
  | cons kv rest ih =>
    simp only [List.map_cons, List.nodup_cons] at hnd
    rcases List.mem_cons.mp hm with h | h
    · simp [FS.findPath, ← h]
    · have hk : kv.1 ≠ p := by
        intro hkp
        exact hnd.1 (hkp ▸ (List.mem_map.mpr ⟨(p, e), h, rfl⟩))
      simp [FS.findPath, hk, ih hnd.2 h]

theorem findPath_eraseKey_ne (fs : FS) {p q : String} (h : q ≠ p) :
    FS.findPath (eraseKey fs p) q = FS.findPath fs q := by
  induction fs with
  | nil => simp [eraseKey]
  | cons kv rest ih =>
    by_cases hk : kv.1 = p
    · have hkq : kv.1 ≠ q := fun hq => h (hq.symm.trans hk)
      simp [eraseKey, hk, FS.findPath, hkq, h, h.symm, ih]
    · by_cases hq : kv.1 = q <;> simp [eraseKey, hk, FS.findPath, hq, ih, h, h.symm]

theorem existsSync_false_findPath {fs : FS} {p : String}
    (hex : existsSync fs p = false) : FS.findPath fs p = none := by
  rcases hf : FS.findPath fs p with _ | e
  · rfl
  · rw [existsSync, hf] at hex
    simp at hex

theorem findPath_map_overwrite (fs : FS) (p : String) (e : FSEntry)
    (hex : existsSync fs p = true) :
    FS.findPath (fs.map (fun kv => if kv.1 = p then (p, e) else kv)) p = some e := by
  induction fs with
  | nil => simp [existsSync, FS.findPath] at hex
  | cons kv rest ih =>
    by_cases hk : kv.1 = p
    · simp [FS.findPath, hk]
    · have hex' : existsSync rest p = true := by
        simpa [existsSync, FS.findPath, hk] using hex
      simp [FS.findPath, hk, ih hex']

theorem findPath_map_overwrite_ne (fs : FS) {p q : String} (e : FSEntry) (h : q ≠ p) :
    FS.findPath (fs.map (fun kv => if kv.1 = p then (p, e) else kv)) q =
      FS.findPath fs q := by
  induction fs with
  | nil => simp [FS.findPath]
  | cons kv rest ih =>
    by_cases hk : kv.1 = p
    · have hkq : kv.1 ≠ q := fun hq => h (hq.symm.trans hk)
      simp [FS.findPath, hk, hkq, h, h.symm, ih]
    · by_cases hq : kv.1 = q <;> simp [FS.findPath, hk, hq, h, h.symm, ih]

theorem findPath_writeEntry_self (fs : FS) (p : String) (e : FSEntry) :
    FS.findPath (writeEntry fs p e) p = some e := by
  unfold writeEntry
  cases hex : existsSync fs p with
  | true =>
    simp only [hex, if_true]
    exact findPath_map_overwrite fs p e hex
  | false =>
    simp only [hex, Bool.false_eq_true, if_false]
    rw [findPath_append]
    simp [existsSync_false_findPath hex, FS.findPath]

theorem findPath_writeEntry_ne (fs : FS) {p q : String} (e : FSEntry) (h : q ≠ p) :
    FS.findPath (writeEntry fs p e) q = FS.findPath fs q := by
  unfold writeEntry
  cases hex : existsSync fs p with
  | true =>
    simp only [hex, if_true]
    exact findPath_map_overwrite_ne fs e h
  | false =>
    simp only [hex, Bool.false_eq_true, if_false]
    rw [findPath_append]
    rcases hf : FS.findPath fs q with _ | e'
    · simp [FS.findPath, h.symm]
    · simp

theorem existsSync_eq_true_iff (fs : FS) (p : String) :
    existsSync fs p = true ↔ ∃ e, FS.findPath fs p = some e := by
  simp [existsSync, Option.isSome_iff_exists]

theorem countP_key_of_not_mem {fs : FS} {p : String}
    (h : p ∉ fs.map Prod.fst) :
    fs.countP (fun kv => kv.1 == p) = 0 := by
  induction fs with
  | nil => simp
  | cons kv rest ih =>
    simp only [List.map_cons, List.mem_cons, not_or] at h
    have hk : (kv.1 == p) = false :=
      beq_eq_false_iff_ne.mpr (fun hkp => h.1 hkp.symm)
    simp [List.countP_cons, hk, ih h.2]

theorem countP_key_eq_one {fs : FS} {p : String}
    (hnd : (fs.map Prod.fst).Nodup) (hm : p ∈ fs.map Prod.fst) :
    fs.countP (fun kv => kv.1 == p) = 1 := by
  induction fs with
  | nil => simp at hm
  | cons kv rest ih =>
    simp only [List.map_cons, List.nodup_cons] at hnd
    rcases List.mem_cons.mp hm with h | h
    · have hnot : p ∉ rest.map Prod.fst := h ▸ hnd.1
      have hk : (kv.1 == p) = true := beq_iff_eq.mpr h.symm
      simp [List.countP_cons, hk, countP_key_of_not_mem hnot]
    · have hk : (kv.1 == p) = false :=
        beq_eq_false_iff_ne.mpr (fun hkp => hnd.1 (hkp ▸ h))
      simp [List.countP_cons, hk, ih hnd.2 h]

/-! ## Auxiliary facts about `mkdirRecursive` -/

theorem statIsFile_append_dir (fs : FS) (q0 x : String)
    (h : statIsFile fs x = false) :
    statIsFile (fs ++ [(q0, FSEntry.dir)]) x = false := by
  unfold statIsFile at h ⊢
  rw [findPath_append]
  rcases hf : FS.findPath fs x with _ | e
  · by_cases hq : q0 = x <;> simp [FS.findPath, hq]
  · rcases e with c | _
    · rw [hf] at h
      simp at h
    · simp [hf]

theorem statIsFile_append_any (fs l2 : FS) (x : String)
    (h : statIsFile fs x = true) : statIsFile (fs ++ l2) x = true := by
  unfold statIsFile at h ⊢
  rw [findPath_append]
  rcases hf : FS.findPath fs x with _ | e
  · rw [hf] at h
    simp at h
  · simp only [hf] at h ⊢
    exact h

theorem mkdirWalk_findPath :
    ∀ (l : List String) (fs fs' : FS) (x : String),
      mkdirWalk fs l = .ok fs' →
      FS.findPath fs' x = FS.findPath fs x ∨ FS.findPath fs' x = some FSEntry.dir := by
  intro l
  induction l with
  | nil =>
    intro fs fs' x h
    simp only [mkdirWalk, Except.ok.injEq] at h
    subst h
    exact Or.inl rfl
  | cons q rest ih =>
    intro fs fs' x h
    simp only [mkdirWalk] at h
    rcases hf : FS.findPath fs q with _ | e
    · simp only [hf] at h
      rcases ih (fs ++ [(q, FSEntry.dir)]) fs' x h with h' | h'
      · rw [findPath_append] at h'
        rcases hfx : FS.findPath fs x with _ | ex
        · simp only [hfx] at h'
          by_cases hqx : q = x
          · right
            rw [h']
            simp [FS.findPath, hqx]
          · left
            rw [h']
            simp [FS.findPath, hqx, hfx]
        · simp only [hfx] at h'
          exact Or.inl h'
      · exact Or.inr h'
    · rcases e with c | _
      · simp only [hf] at h
        cases hb : rest.isEmpty <;> simp [hb] at h
      · simp only [hf] at h
        exact ih fs fs' x h

theorem mkdirWalk_exists_mono (l : List String) (fs fs' : FS) (x : String)
    (h : mkdirWalk fs l = .ok fs') (hx : existsSync fs x = true) :
    existsSync fs' x = true := by
  rcases mkdirWalk_findPath l fs fs' x h with h' | h'
  · rw [existsSync, h']
    exact hx
  · rw [existsSync, h']
    rfl

theorem mkdirWalk_exists_mem :
    ∀ (l : List String) (fs fs' : FS) (q : String),
      mkdirWalk fs l = .ok fs' → q ∈ l → existsSync fs' q = true := by
  intro l
  induction l with
  | nil =>
    intro fs fs' q h hq
    simp at hq
  | cons a rest ih =>
    intro fs fs' q h hq
    simp only [mkdirWalk] at h
    rcases hf : FS.findPath fs a with _ | e
    · simp only [hf] at h
      rcases List.mem_cons.mp hq with h' | h'
      · subst h'
        refine mkdirWalk_exists_mono rest (fs ++ [(q, FSEntry.dir)]) fs' q h ?_
        rw [existsSync, findPath_append]
        simp [hf, FS.findPath]
      · exact ih (fs ++ [(a, FSEntry.dir)]) fs' q h h'
    · rcases e with c | _
      · simp only [hf] at h
        cases hb : rest.isEmpty <;> simp [hb] at h
      · simp only [hf] at h
        rcases List.mem_cons.mp hq with h' | h'
        · subst h'
          exact mkdirWalk_exists_mono rest fs fs' q h (by simp [existsSync, hf])
        · exact ih fs fs' q h h'

theorem mkdirWalk_keys_nodup :
    ∀ (l : List String) (fs fs' : FS),
      mkdirWalk fs l = .ok fs' →
      (fs.map Prod.fst).Nodup → (fs'.map Prod.fst).Nodup := by
  intro l
  induction l with
  | nil =>
    intro fs fs' h hnd
    simp only [mkdirWalk, Except.ok.injEq] at h
    subst h
    exact hnd
  | cons a rest ih =>
    intro fs fs' h hnd
    simp only [mkdirWalk] at h
    rcases hf : FS.findPath fs a with _ | e
    · simp only [hf] at h
      have ha : a ∉ fs.map Prod.fst := (findPath_none_iff fs a).mp hf
      have hnd' : ((fs ++ [(a, FSEntry.dir)]).map Prod.fst).Nodup := by
        simp only [List.map_append, List.map_cons, List.map_nil, List.nodup_append]
        refine ⟨hnd, List.nodup_singleton a, ?_⟩
        intro x hx hb
        rw [List.mem_singleton] at hb
        exact ha (hb ▸ hx)
      exact ih (fs ++ [(a, FSEntry.dir)]) fs' h hnd'
    · rcases e with c | _
      · simp only [hf] at h
        cases hb : rest.isEmpty <;> simp [hb] at h
      · simp only [hf] at h
        exact ih fs fs' h hnd

theorem mkdirWalk_ok_of_safe :
    ∀ (l : List String) (fs : FS),
      (∀ q ∈ l, statIsFile fs q = false) →
      ∃ fs', mkdirWalk fs l = .ok fs' := by
  intro l
  induction l with
  | nil =>
    intro fs _
    exact ⟨fs, rfl⟩
  | cons a rest ih =>
    intro fs hsafe
    rcases hf : FS.findPath fs a with _ | e
    · have hsafe' : ∀ q ∈ rest, statIsFile (fs ++ [(a, FSEntry.dir)]) q = false :=
        fun q hq => statIsFile_append_dir fs a q (hsafe q (List.mem_cons_of_mem a hq))
      obtain ⟨fs', h⟩ := ih (fs ++ [(a, FSEntry.dir)]) hsafe'
      refine ⟨fs', ?_⟩
      simp only [mkdirWalk, hf]
      exact h
    · rcases e with c | _
      · have hcontra := hsafe a (List.mem_cons_self a rest)
        simp [statIsFile, hf] at hcontra
      · obtain ⟨fs', h⟩ := ih fs (fun q hq => hsafe q (List.mem_cons_of_mem a hq))
        refine ⟨fs', ?_⟩
        simp only [mkdirWalk, hf]
        exact h

theorem mkdirWalk_error_of_file :
    ∀ (l : List String) (fs : FS) (q : String),
      q ∈ l → statIsFile fs q = true →
      ∃ e, mkdirWalk fs l = .error e := by
  intro l
  induction l with
  | nil =>
    intro fs q hq _
    simp at hq
  | cons a rest ih =>
    intro fs q hq hfile
    rcases hf : FS.findPath fs a with _ | e
    · have hqa : q ≠ a := by
        intro h'
        rw [h'] at hfile
        simp [statIsFile, hf] at hfile
      have hq' : q ∈ rest := by
        rcases List.mem_cons.mp hq with h' | h'
        · exact absurd h' hqa
        · exact h'
      obtain ⟨e, he⟩ := ih (fs ++ [(a, FSEntry.dir)]) q hq'
        (statIsFile_append_any fs _ q hfile)
      refine ⟨e, ?_⟩
      simp only [mkdirWalk, hf]
      exact he
    · rcases e with c | _
      · refine ⟨if rest.isEmpty then "EEXIST: file already exists, mkdir " ++ a
                else "ENOTDIR: not a directory, mkdir " ++ a, ?_⟩
        simp only [mkdirWalk, hf]
        cases hb : rest.isEmpty <;> simp [hb]
      · have hqa : q ≠ a := by
          intro h'
          rw [h'] at hfile
          simp [statIsFile, hf] at hfile
        have hq' : q ∈ rest := by
          rcases List.mem_cons.mp hq with h' | h'
          · exact absurd h' hqa
          · exact h'
        obtain ⟨e, he⟩ := ih fs q hq' hfile
        refine ⟨e, ?_⟩
        simp only [mkdirWalk, hf]
        exact he


theorem mem_pathPrefixes_self (p : String) : p ∈ pathPrefixes p := by
  simp [pathPrefixes]

/-! ## Auxiliary facts about `extname` and `sliceNeg` -/

theorem dropWhile_head_false {α : Type} (p : α → Bool) :
    ∀ (l : List α) (a : α) (as : List α), l.dropWhile p = a :: as → p a = false := by
  intro l
  induction l with
  | nil => intro a as h; simp [List.dropWhile] at h
  | cons x xs ih =>
    intro a as h
    rw [List.dropWhile_cons] at h
    by_cases hx : p x = true
    · exact ih a as (by simpa [hx] using h)
    · have hx' : p x = false := by simpa using hx
      rw [hx'] at h
      simp at h
      exact h.1 ▸ hx'

theorem afterLast_suffix (c : Char) (l : List Char) : afterLast c l <:+ l := by
  rw [← List.reverse_prefix ]
  unfold afterLast
  rw [List.reverse_reverse]
  exact List.takeWhile_prefix _

theorem extnameChars_suffix (b : List Char) (h : extnameChars b ≠ []) :
    extnameChars b <:+ b := by
  unfold extnameChars at *
  by_cases hdd : b = ['.', '.']
  · simp [hdd] at h
  · simp only [hdd, if_false] at h ⊢
    rcases hdrop : b.reverse.dropWhile (fun a => a != '.') with _ | ⟨d1, tail⟩
    · simp [hdrop] at h
    · rcases tail with _ | ⟨d2, tail'⟩
      · simp [hdrop] at h
      · simp only [hdrop]
        have hd1 : (d1 != '.') = false :=
          dropWhile_head_false _ b.reverse d1 (d2 :: tail') hdrop
        have hd1' : d1 = '.' := by simpa using hd1
        rw [← List.reverse_prefix ]
        have hsplit : b.reverse.takeWhile (fun a => a != '.') ++ (d1 :: d2 :: tail') =
            b.reverse := by
          rw [← hdrop]
          exact List.takeWhile_append_dropWhile _ _
        simp only [List.reverse_cons, List.reverse_reverse]
        refine ⟨d2 :: tail', ?_⟩
        subst hd1'
        rw [List.append_assoc]
        simpa using hsplit

theorem extnameChars_split (b : List Char) (h : extnameChars b ≠ []) :
    ∃ u : List Char, u ++ extnameChars b = b :=
  extnameChars_suffix b h

theorem extname_data (p : String) :
    (extname p).data = extnameChars (afterLast '/' p.data) := rfl

theorem extname_ne_empty_iff (p : String) :
    extname p ≠ "" ↔ extnameChars (afterLast '/' p.data) ≠ [] := by
  constructor
  · intro h h'
    exact h (by simp [extname, h'])
  · intro h h'
    exact h (by simpa using congrArg String.data h')

/-- The suffix decomposition underlying the disambiguation in `move_file`:
for a destination with a nonempty extension, the slice before the extension
and the extension reassemble the destination. -/
theorem sliceNeg_extname_append (d : String) (h : extname d ≠ "") :
    sliceNeg d (extname d).length ++ extname d = d := by
  have hec : extnameChars (afterLast '/' d.data) ≠ [] :=
    (extname_ne_empty_iff d).mp h
  obtain ⟨u, hu⟩ : extnameChars (afterLast '/' d.data) <:+ d.data :=
    (extnameChars_suffix _ hec).trans (afterLast_suffix '/' d.data)
  have hlen : (extname d).length = (extnameChars (afterLast '/' d.data)).length := rfl
  have hnz : (extname d).length ≠ 0 := by
    rw [hlen]
    simpa using hec
  have hkey : d.data.take (d.data.length - (extname d).length) = u := by
    rw [← hu, hlen]
    simp
  apply strData_inj
  unfold sliceNeg
  rw [if_neg hnz]
  show d.data.take (d.data.length - (extname d).length) ++
      extnameChars (afterLast '/' d.data) = d.data
  rw [hkey, hu]

/-! ## Auxiliary facts about directory listing -/

theorem stripPrefixList_sound :
    ∀ (pre l rest : List Char), stripPrefixList pre l = some rest → l = pre ++ rest := by
  intro pre
  induction pre with
  | nil =>
    intro l rest h
    simp [stripPrefixList] at h
    simp [h]
  | cons a as ih =>
    intro l rest h
    cases l with
    | nil => simp [stripPrefixList] at h
    | cons b bs =>
      by_cases hab : a = b
      · simp only [stripPrefixList, hab, if_true] at h
        simp [hab, ih bs rest h]
      · simp [stripPrefixList, hab] at h

theorem childName_join {d p n : String} (h : childName d p = some n) :
    pathJoin d n = p := by
  unfold childName at h
  rcases hs : stripPrefixList (d.data ++ ['/']) p.data with _ | rest
  · simp [hs] at h
  · simp only [hs] at h
    by_cases hc : rest ≠ [] ∧ '/' ∉ rest
    · rw [if_pos hc] at h
      have hn : n = String.mk rest := by
        simpa using h.symm
      apply strData_inj
      show (d.data ++ ['/']) ++ n.data = p.data
      rw [stripPrefixList_sound _ _ _ hs, hn]
    · rw [if_neg hc] at h
      simp at h

theorem filterMap_filter_comm {α β : Type} (g : α → Option β) (q : β → Bool) :
    ∀ l : List α,
      (l.filterMap g).filter q =
        l.filterMap (fun a =>
          match g a with
          | some b => if q b then some b else none
          | none => none) := by
  intro l
  induction l with
  | nil => simp
  | cons a as ih =>
    rcases hg : g a with _ | b
    · simp [List.filterMap_cons, hg, ih]
    · cases hq : q b <;>
        simp [List.filterMap_cons, hg, hq, List.filter_cons, ih]

/-- Specification-side description of a directory listing: the names of
exactly those filesystem entries that are regular-file children of `d`, in
filesystem (enumeration) order. -/
def specFileNames (fs : FS) (d : String) : List String :=
  fs.filterMap (fun kv =>
    match childName d kv.1, kv.2 with
    | some n, FSEntry.file _ => some n
    | _, _ => none)

theorem childNames_filter_eq_spec (fs : FS) (d : String)
    (hnd : (fs.map Prod.fst).Nodup) :
    (childNames fs d).filter (fun f => statIsFile fs (pathJoin d f)) =
      specFileNames fs d := by
  unfold childNames specFileNames
  rw [filterMap_filter_comm]
  apply List.filterMap_congr
  intro kv hkv
  rcases hc : childName d kv.1 with _ | n
  · rfl
  · have hj : pathJoin d n = kv.1 := childName_join hc
    have hf : FS.findPath fs kv.1 = some kv.2 :=
      findPath_of_mem_nodup hnd (by rcases kv with ⟨k, v⟩; exact hkv)
    have hstat : statIsFile fs (pathJoin d n) =
        (match kv.2 with
         | FSEntry.file _ => true
         | FSEntry.dir => false) := by
      rw [hj]
      unfold statIsFile
      rw [hf]
      rcases kv.2 with c | _ <;> rfl
    rcases he : kv.2 with c | _ <;> rw [he] at hstat <;> simp [hstat]

/-! ## Auxiliary facts about the orchestration loop -/

theorem seqResults_ok_length (now : Nat) :
    ∀ (tcs : List ToolCall) (fs : FS) (rs : List String) (fsf : FS),
      seqResults now tcs fs = .ok (rs, fsf) → rs.length = tcs.length := by
  intro tcs
  induction tcs with
  | nil =>
    intro fs rs fsf h
    simp only [seqResults] at h
    cases h
    rfl
  | cons tc rest ih =>
    intro fs rs fsf h
    simp only [seqResults] at h
    rcases hr : toolFunctions tc.name with _ | f
    · simp [hr] at h
    · simp only [hr] at h
      rcases hf : f tc.arguments now fs with e | ⟨r, fs'⟩
      · simp [hf] at h
      · simp only [hf] at h
        rcases hs : seqResults now rest fs' with e | ⟨rs', fsf'⟩
        · simp [hs] at h
        · simp only [hs, Except.ok.injEq, Prod.mk.injEq] at h
          rcases h with ⟨h1, h2⟩
          rw [← h1]
          simpa using ih fs' rs' fsf' hs

theorem execToolCalls_of_seqResults (now : Nat) :
    ∀ (tcs : List ToolCall) (msgs : List Message) (fs : FS) (rs : List String) (fsf : FS),
      seqResults now tcs fs = .ok (rs, fsf) →
      execToolCalls now tcs msgs fs = .ok (msgs ++ toolResultMessages tcs rs, fsf) := by
  intro tcs
  induction tcs with
  | nil =>
    intro msgs fs rs fsf h
    simp only [seqResults] at h
    cases h
    simp [execToolCalls, toolResultMessages]
  | cons tc rest ih =>
    intro msgs fs rs fsf h
    simp only [seqResults] at h
    rcases hr : toolFunctions tc.name with _ | f
    · simp [hr] at h
    · simp only [hr] at h
      rcases hf : f tc.arguments now fs with e | ⟨r, fs'⟩
      · simp [hf] at h
      · simp only [hf] at h
        rcases hs : seqResults now rest fs' with e | ⟨rs', fsf'⟩
        · simp [hs] at h
        · simp only [hs, Except.ok.injEq, Prod.mk.injEq] at h
          rcases h with ⟨h1, h2⟩
          simp only [execToolCalls, hr, hf]
          rw [ih (msgs ++ [toolResultMessage tc.id r]) fs' rs' fsf' hs, ← h1, ← h2]
          simp [toolResultMessages, List.zip_cons_cons]

theorem toolResultMessages_getElem? :
    ∀ (tcs : List ToolCall) (rs : List String) (i : Nat) (tc : ToolCall) (r : String),
      tcs[i]? = some tc → rs[i]? = some r →
      (toolResultMessages tcs rs)[i]? = some (toolResultMessage tc.id r) := by
  intro tcs
  induction tcs with
  | nil =>
    intro rs i tc r h1 h2
    simp at h1
  | cons a as ih =>
    intro rs i tc r h1 h2
    cases rs with
    | nil => simp at h2
    | cons b bs =>
      cases i with
      | zero =>
        simp only [List.getElem?_cons_zero, Option.some.injEq] at h1 h2
        simp [toolResultMessages, List.zip_cons_cons, h1, h2]
      | succ j =>
        simp only [List.getElem?_cons_succ] at h1 h2
        simpa [toolResultMessages, List.zip_cons_cons] using ih bs j tc r h1 h2

/-- A model response that keeps the loop going: one `list_files` request on
a never-created path, so executing it always succeeds and leaves the
filesystem unchanged. -/
def busyResponse : AssistantResponse :=
  ⟨none, [⟨"call_0", "list_files", ⟨some "q", none, none, none, none, none⟩⟩]⟩

/-- A model response with no tool-call requests: the loop's only exit. -/
def doneResponse : AssistantResponse := ⟨some "All files organized.", []⟩

theorem runLoop_busy_chain (now : Nat) :
    ∀ (n : Nat) (msgs : List Message),
      ∃ out,
        runLoop now (List.replicate n busyResponse ++ [doneResponse]) msgs [] =
          .ok out := by
  intro n
  induction n with
  | zero =>
    intro msgs
    exact ⟨_, rfl⟩
  | succ n ih =>
    intro msgs
    obtain ⟨out, hout⟩ := ih ((msgs ++ [busyResponse.toMessage]) ++
      [toolResultMessage "call_0" "Directory not found: q"])
    refine ⟨out, ?_⟩
    rw [List.replicate_succ, List.cons_append]
    exact hout

/-! ## Claims -/

/-- C7: for every call `move_file(source, destination)` where `source` does
not exist, the function returns a "not found" string and performs no
filesystem mutation: the returned state is the input state unchanged. -/
theorem move_file_missing_source (fs : FS) (now : Nat) (source destination : String)
    (h : existsSync fs source = false) :
    move_file fs now source destination = ("Source file not found: " ++ source, fs) := by
  simp [move_file, h]

theorem move_file_missing_source_witness :
    existsSync [("b", FSEntry.file "y")] "a" = false ∧
    move_file [("b", FSEntry.file "y")] 3 "a" "c" =
      ("Source file not found: a", [("b", FSEntry.file "y")]) := by
  refine ⟨by decide, ?_⟩
  exact (move_file_missing_source [("b", FSEntry.file "y")] 3 "a" "c" (by decide)).trans
    (by decide)

/-- C8: for every non-existent path, `list_files` returns a descriptive
"not found" string (an ordinary `.ok` result, not a raised error). -/
theorem list_files_missing_directory (fs : FS) (d : String)
    (h : FS.findPath fs d = none) :
    list_files fs d = .ok ("Directory not found: " ++ d) := by
  have hex : existsSync fs d = false := by simp [existsSync, h]
  simp [list_files, hex]

theorem list_files_missing_directory_witness :
    FS.findPath [("x", FSEntry.dir)] "nope" = none ∧
    list_files [("x", FSEntry.dir)] "nope" = .ok "Directory not found: nope" := by
  refine ⟨by decide, ?_⟩
  exact (list_files_missing_directory [("x", FSEntry.dir)] "nope" (by decide)).trans
    (by decide)

/-- C10: when `list_files` is called on a path that exists but is a regular
file, the `existsSync` guard passes and `readdirSync` raises `ENOTDIR`; the
error propagates out of the tool (no soft-failure string), and through the
tool-execution loop it aborts the run. -/
theorem list_files_not_directory_raises (fs : FS) (p c : String)
    (h : FS.findPath fs p = some (FSEntry.file c)) :
    list_files fs p = .error ("ENOTDIR: not a directory, scandir " ++ p) ∧
    ∀ (now : Nat) (cid : String) (msgs : List Message),
      execToolCalls now
          [⟨cid, "list_files", ⟨some p, none, none, none, none, none⟩⟩] msgs fs =
        .error (AgentError.toolThrew ("ENOTDIR: not a directory, scandir " ++ p)) := by
  have hex : existsSync fs p = true := by simp [existsSync, h]
  have hrd : readdirSync fs p = .error ("ENOTDIR: not a directory, scandir " ++ p) := by
    simp [readdirSync, h]
  have hlf : list_files fs p = .error ("ENOTDIR: not a directory, scandir " ++ p) := by
    simp [list_files, hex, hrd]
  refine ⟨hlf, ?_⟩
  intro now cid msgs
  simp [execToolCalls, toolFunctions, hlf, Except.map]

theorem list_files_not_directory_raises_witness :
    FS.findPath [("f", FSEntry.file "hi")] "f" = some (FSEntry.file "hi") ∧
    list_files [("f", FSEntry.file "hi")] "f" =
      .error "ENOTDIR: not a directory, scandir f" ∧
    execToolCalls 0 [⟨"i1", "list_files", ⟨some "f", none, none, none, none, none⟩⟩]
        [] [("f", FSEntry.file "hi")] =
      .error (AgentError.toolThrew "ENOTDIR: not a directory, scandir f") := by
  refine ⟨by decide, ?_, ?_⟩
  · exact (list_files_not_directory_raises [("f", FSEntry.file "hi")] "f" "hi"
      (by decide)).1.trans (by decide)
  · exact ((list_files_not_directory_raises [("f", FSEntry.file "hi")] "f" "hi"
      (by decide)).2 0 "i1" []).trans (by decide)

/-- C1, counterexample: with `source = destination = "a"` both existing and
the destination having no file extension, the code computes
`base = "a".slice(0, -0) = ""` and renames to `"_5"`: the path actually
used is not the destination with a token inserted before its extension
(`"a_5"`), and the pre-existing file at the given destination is gone, not
left unchanged. -/
theorem move_file_existing_destination_counterexample :
    existsSync [("a", FSEntry.file "x")] "a" = true ∧
    move_file [("a", FSEntry.file "x")] 5 "a" "a" =
      ("Moved: a -> _5", [("_5", FSEntry.file "x")]) ∧
    FS.findPath (move_file [("a", FSEntry.file "x")] 5 "a" "a").2 "a" = none ∧
    ("_5" : String) ≠ "a_5" := by
  exact ⟨by decide, by decide, by decide, by decide⟩

/-- C1, amended: for every call `move_file(source, destination)` where
`source` exists, `destination` exists, the destination's extension is
nonempty, and `source ≠ destination`, the move uses
`base ++ "_" ++ now ++ ext` where `destination = base ++ ext` (token before
the extension, extension preserved), that path differs from `destination`,
the pre-existing entry at `destination` is unchanged, the moved entry lands
at the final path, and the returned string names the source basename and
the final path. -/
theorem move_file_disambiguates_nonempty_extension (fs : FS) (now : Nat)
    (source destination : String)
    (hs : existsSync fs source = true)
    (hd : existsSync fs destination = true)
    (hext : extname destination ≠ "")
    (hne : source ≠ destination) :
    sliceNeg destination (extname destination).length ++ extname destination =
      destination ∧
    move_file fs now source destination =
      ("Moved: " ++ basename source ++ " -> " ++
         (sliceNeg destination (extname destination).length ++ "_" ++ toString now ++
           extname destination),
       renameSync fs source
         (sliceNeg destination (extname destination).length ++ "_" ++ toString now ++
           extname destination)) ∧
    sliceNeg destination (extname destination).length ++ "_" ++ toString now ++
        extname destination ≠ destination ∧
    FS.findPath (move_file fs now source destination).2 destination =
      FS.findPath fs destination ∧
    FS.findPath (move_file fs now source destination).2
        (sliceNeg destination (extname destination).length ++ "_" ++ toString now ++
          extname destination) =
      FS.findPath fs source := by
  have hsplit := sliceNeg_extname_append destination hext
  have h2 : move_file fs now source destination =
      ("Moved: " ++ basename source ++ " -> " ++
         (sliceNeg destination (extname destination).length ++ "_" ++ toString now ++
           extname destination),
       renameSync fs source
         (sliceNeg destination (extname destination).length ++ "_" ++ toString now ++
           extname destination)) := by
    simp only [move_file, hs, hd, Bool.not_true, Bool.false_eq_true, if_false, if_true]
  have hdd : destination.data =
      (sliceNeg destination (extname destination).length).data ++
        (extname destination).data :=
    (congrArg String.data hsplit).symm
  have h3 : sliceNeg destination (extname destination).length ++ "_" ++ toString now ++
      extname destination ≠ destination := by
    intro hcontra
    have h6 : (((sliceNeg destination (extname destination).length).data ++ ['_']) ++
        (toString now).data) ++ (extname destination).data = destination.data :=
      congrArg String.data hcontra
    rw [hdd] at h6
    have h7 := congrArg List.length h6
    simp only [List.length_append, List.length_cons, List.length_nil] at h7
    omega
  obtain ⟨e, he⟩ := (existsSync_eq_true_iff fs source).mp hs
  have hrn : renameSync fs source
      (sliceNeg destination (extname destination).length ++ "_" ++ toString now ++
        extname destination) =
      writeEntry (eraseKey fs source)
        (sliceNeg destination (extname destination).length ++ "_" ++ toString now ++
          extname destination) e := by
    simp [renameSync, he]
  refine ⟨hsplit, h2, h3, ?_, ?_⟩
  · rw [h2]
    show FS.findPath (renameSync fs source _) destination = FS.findPath fs destination
    rw [hrn]
    rw [findPath_writeEntry_ne _ _ (fun hq => h3 hq.symm)]
    exact findPath_eraseKey_ne fs (fun hq => hne hq.symm)
  · rw [h2]
    show FS.findPath (renameSync fs source _) _ = FS.findPath fs source
    rw [hrn, findPath_writeEntry_self, he]

theorem move_file_disambiguates_nonempty_extension_witness :
    (existsSync [("x/a.png", FSEntry.file "c"), ("x/Images/a.png", FSEntry.file "d")]
        "x/a.png" = true ∧
     existsSync [("x/a.png", FSEntry.file "c"), ("x/Images/a.png", FSEntry.file "d")]
        "x/Images/a.png" = true ∧
     extname "x/Images/a.png" ≠ "" ∧
     ("x/a.png" : String) ≠ "x/Images/a.png") ∧
    move_file [("x/a.png", FSEntry.file "c"), ("x/Images/a.png", FSEntry.file "d")]
        7 "x/a.png" "x/Images/a.png" =
      ("Moved: a.png -> x/Images/a_7.png",
       [("x/Images/a.png", FSEntry.file "d"), ("x/Images/a_7.png", FSEntry.file "c")]) := by
  refine ⟨⟨by decide, by decide, by decide, by decide⟩, ?_⟩
  exact (move_file_disambiguates_nonempty_extension
    [("x/a.png", FSEntry.file "c"), ("x/Images/a.png", FSEntry.file "d")]
    7 "x/a.png" "x/Images/a.png"
    (by decide) (by decide) (by decide) (by decide)).2.1.trans (by decide)

/-- C5, counterexample: when the path already exists as a regular file,
the call returns "already exists" and leaves the file untouched — and since
the state is unchanged, the second call is the very same application — so
two calls in succession do not leave a directory at the path: the sole
entry there is still a file. -/
theorem create_folder_idempotent_counterexample :
    FS.findPath [("a", FSEntry.file "x")] "a" = some (FSEntry.file "x") ∧
    create_folder [("a", FSEntry.file "x")] "a" =
      .ok ("Folder already exists: a", [("a", FSEntry.file "x")]) ∧
    FS.findPath [("a", FSEntry.file "x")] "a" ≠ some FSEntry.dir := by
  exact ⟨by decide, by rfl, by decide⟩

/-- C5, amended, part 1: over a filesystem with distinct keys, for every
path none of whose `/`-prefixes (the path itself included) exists as a
regular file, calling `create_folder` twice in succession leaves exactly
one entry at that path, which is a directory; the second call performs no
action and returns an "already exists" string without raising; when the
path did not pre-exist, the first call creates it as a directory (with
every missing intermediate prefix) and returns a success string; when the
path pre-existed (necessarily as a directory here), the first call likewise
performs no action and returns "already exists".  Part 2: when the path is
missing but one of its prefixes exists as a regular file, the recursive
`mkdirSync` raises, so the call throws instead of returning a success
string. -/
theorem create_folder_idempotent_amended :
    (∀ (fs : FS) (p : String),
      (fs.map Prod.fst).Nodup →
      (∀ q ∈ pathPrefixes p, statIsFile fs q = false) →
      ∃ r1 fs1,
        create_folder fs p = .ok (r1, fs1) ∧
        create_folder fs1 p = .ok ("Folder already exists: " ++ p, fs1) ∧
        fs1.countP (fun kv => kv.1 == p) = 1 ∧
        FS.findPath fs1 p = some FSEntry.dir ∧
        (FS.findPath fs p = none →
          r1 = "Created folder: " ++ p ∧
          ∀ q ∈ pathPrefixes p, existsSync fs1 q = true) ∧
        (∀ e, FS.findPath fs p = some e →
          r1 = "Folder already exists: " ++ p ∧ fs1 = fs)) ∧
    (∀ (fs : FS) (p q : String),
      existsSync fs p = false →
      q ∈ pathPrefixes p →
      statIsFile fs q = true →
      ∃ e, create_folder fs p = .error e) := by
  constructor
  · intro fs p hnd hsafe
    rcases hf : FS.findPath fs p with _ | e
    · -- the path does not pre-exist: the first call creates it
      have hex : existsSync fs p = false := by simp [existsSync, hf]
      obtain ⟨fsw, hwalk⟩ := mkdirWalk_ok_of_safe (pathPrefixes p) fs hsafe
      have hcf : create_folder fs p = .ok ("Created folder: " ++ p, fsw) := by
        simp [create_folder, hex, mkdirRecursive, hwalk]
      have hmem : existsSync fsw p = true :=
        mkdirWalk_exists_mem (pathPrefixes p) fs fsw p hwalk (mem_pathPrefixes_self p)
      have hdir : FS.findPath fsw p = some FSEntry.dir := by
        rcases mkdirWalk_findPath (pathPrefixes p) fs fsw p hwalk with h | h
        · exfalso
          rw [existsSync, h, hf] at hmem
          simp at hmem
        · exact h
      have hnd2 : (fsw.map Prod.fst).Nodup :=
        mkdirWalk_keys_nodup (pathPrefixes p) fs fsw hwalk hnd
      have hmem2 : p ∈ fsw.map Prod.fst := by
        by_contra hc
        rw [← findPath_none_iff ] at hc
        rw [hc] at hdir
        cases hdir
      refine ⟨"Created folder: " ++ p, fsw, hcf, ?_, ?_, hdir, ?_, ?_⟩
      · simp [create_folder, hmem]
      · exact countP_key_eq_one hnd2 hmem2
      · intro _
        exact ⟨rfl, fun q hq => mkdirWalk_exists_mem (pathPrefixes p) fs fsw q hwalk hq⟩
      · intro e' he'
        simp at he'
    · -- the path pre-exists: with no file prefix it must be a directory
      have hex : existsSync fs p = true := by simp [existsSync, hf]
      have hcf : create_folder fs p = .ok ("Folder already exists: " ++ p, fs) := by
        simp [create_folder, hex]
      have hedir : e = FSEntry.dir := by
        rcases e with c | _
        · have := hsafe p (mem_pathPrefixes_self p)
          simp [statIsFile, hf] at this
        · rfl
      have hmem : p ∈ fs.map Prod.fst := by
        by_contra hc
        rw [← findPath_none_iff ] at hc
        rw [hc] at hf
        cases hf
      refine ⟨"Folder already exists: " ++ p, fs, hcf, hcf, countP_key_eq_one hnd hmem,
        by rw [hf, hedir], ?_, ?_⟩
      · intro h
        simp at h
      · intro e' _
        exact ⟨rfl, rfl⟩
  · intro fs p q hex hq hfile
    obtain ⟨e, he⟩ := mkdirWalk_error_of_file (pathPrefixes p) fs q hq hfile
    refine ⟨e, ?_⟩
    simp [create_folder, hex, mkdirRecursive, he]

theorem create_folder_idempotent_amended_witness :
    (([("x", FSEntry.dir)].map Prod.fst).Nodup ∧
     (∀ q ∈ pathPrefixes "x/sub", statIsFile [("x", FSEntry.dir)] q = false)) ∧
    (∃ r1 fs1,
      create_folder [("x", FSEntry.dir)] "x/sub" = .ok (r1, fs1) ∧
      create_folder fs1 "x/sub" = .ok ("Folder already exists: " ++ "x/sub", fs1) ∧
      FS.findPath fs1 "x/sub" = some FSEntry.dir) ∧
    (existsSync [("f", FSEntry.file "c")] "f/sub" = false ∧
     "f" ∈ pathPrefixes "f/sub" ∧
     statIsFile [("f", FSEntry.file "c")] "f" = true ∧
     ∃ e, create_folder [("f", FSEntry.file "c")] "f/sub" = .error e) := by
  refine ⟨⟨by decide, by decide⟩, ?_, ⟨by decide, by decide, by decide, ?_⟩⟩
  · obtain ⟨r1, fs1, h1, h2, h3, h4, h5, h6⟩ :=
      create_folder_idempotent_amended.1 [("x", FSEntry.dir)] "x/sub"
        (by decide) (by decide)
    exact ⟨r1, fs1, h1, h2, h4⟩
  · exact create_folder_idempotent_amended.2 [("f", FSEntry.file "c")] "f/sub" "f"
      (by decide) (by decide) (by decide)


/-- C6: for every existing directory (over a filesystem with distinct
keys), `list_files` returns the newline-joined names of exactly the
regular-file children, in enumeration order, excluding subdirectories; when
there are no regular-file children it returns the "No files found." string,
never an empty listing. -/
theorem list_files_exactly_regular_files (fs : FS) (d : String)
    (hnd : (fs.map Prod.fst).Nodup)
    (hd : FS.findPath fs d = some FSEntry.dir) :
    list_files fs d =
      .ok (if specFileNames fs d = [] then "No files found."
           else joinWith "\n" (specFileNames fs d)) := by
  have hex : existsSync fs d = true := by simp [existsSync, hd]
  have hrd : readdirSync fs d = .ok (childNames fs d) := by simp [readdirSync, hd]
  have hitems := childNames_filter_eq_spec fs d hnd
  simp only [list_files, hex, Bool.not_true, Bool.false_eq_true, if_false, hrd, hitems]
  rcases hsp : specFileNames fs d with _ | ⟨x, xs⟩
  · simp
  · simp

theorem list_files_exactly_regular_files_witness :
    (([("x", FSEntry.dir), ("x/a.png", FSEntry.file ""), ("x/b.txt", FSEntry.file ""),
       ("x/old", FSEntry.dir)] : FS).map Prod.fst).Nodup ∧
    FS.findPath [("x", FSEntry.dir), ("x/a.png", FSEntry.file ""),
      ("x/b.txt", FSEntry.file ""), ("x/old", FSEntry.dir)] "x" = some FSEntry.dir ∧
    list_files [("x", FSEntry.dir), ("x/a.png", FSEntry.file ""),
      ("x/b.txt", FSEntry.file ""), ("x/old", FSEntry.dir)] "x" =
      .ok "a.png\nb.txt" := by
  refine ⟨by decide, by decide, ?_⟩
  exact (list_files_exactly_regular_files
    [("x", FSEntry.dir), ("x/a.png", FSEntry.file ""), ("x/b.txt", FSEntry.file ""),
     ("x/old", FSEntry.dir)] "x" (by decide) (by decide)).trans (by decide)

/-- C2: for an assistant message carrying `N ≥ 1` tool-call requests whose
sequential execution succeeds, the loop runs the tools strictly in the
listed order (the `seqResults` threading), appends exactly one tool-result
message per request — the i-th carrying the i-th request's invocation
identifier and its stringified result — and only then issues the next model
request: the loop continues on the transcript already extended by the
assistant message and all `N` results. -/
theorem batch_executes_sequentially_before_next_request (now : Nat)
    (resp : AssistantResponse) (rest : List AssistantResponse)
    (msgs : List Message) (fs : FS) (rs : List String) (fsf : FS)
    (hn : 1 ≤ resp.tool_calls.length)
    (hok : seqResults now resp.tool_calls fs = .ok (rs, fsf)) :
    rs.length = resp.tool_calls.length ∧
    execToolCalls now resp.tool_calls (msgs ++ [resp.toMessage]) fs =
      .ok ((msgs ++ [resp.toMessage]) ++ toolResultMessages resp.tool_calls rs, fsf) ∧
    (∀ (i : Nat) (tc : ToolCall) (r : String),
      resp.tool_calls[i]? = some tc → rs[i]? = some r →
      (toolResultMessages resp.tool_calls rs)[i]? =
        some { role := Role.tool, content := some r, tool_calls := [],
               tool_call_id := some tc.id }) ∧
    runLoop now (resp :: rest) msgs fs =
      runLoop now rest ((msgs ++ [resp.toMessage]) ++ toolResultMessages resp.tool_calls rs)
        fsf := by
  have hlen := seqResults_ok_length now resp.tool_calls fs rs fsf hok
  have hexec := execToolCalls_of_seqResults now resp.tool_calls (msgs ++ [resp.toMessage])
    fs rs fsf hok
  have hempty : resp.tool_calls.isEmpty = false := by
    cases hc : resp.tool_calls with
    | nil =>
      rw [hc] at hn
      simp at hn
    | cons a as => simp
  refine ⟨hlen, hexec, ?_, ?_⟩
  · intro i tc r h1 h2
    exact toolResultMessages_getElem? resp.tool_calls rs i tc r h1 h2
  · simp only [runLoop, hempty, Bool.false_eq_true, if_false, hexec]

theorem batch_executes_sequentially_before_next_request_witness :
    (1 ≤ (AssistantResponse.tool_calls
        ⟨none, [⟨"call_1", "create_folder", ⟨none, some "x", none, none, none, none⟩⟩,
                ⟨"call_2", "list_files", ⟨some "x", none, none, none, none, none⟩⟩]⟩).length ∧
     seqResults 0 [⟨"call_1", "create_folder", ⟨none, some "x", none, none, none, none⟩⟩,
                   ⟨"call_2", "list_files", ⟨some "x", none, none, none, none, none⟩⟩] [] =
       .ok (["Created folder: x", "No files found."], [("x", FSEntry.dir)])) ∧
    runLoop 0
        [⟨none, [⟨"call_1", "create_folder", ⟨none, some "x", none, none, none, none⟩⟩,
                 ⟨"call_2", "list_files", ⟨some "x", none, none, none, none, none⟩⟩]⟩,
         doneResponse] [] [] =
      runLoop 0 [doneResponse]
        (([] ++ [AssistantResponse.toMessage
            ⟨none, [⟨"call_1", "create_folder", ⟨none, some "x", none, none, none, none⟩⟩,
                    ⟨"call_2", "list_files", ⟨some "x", none, none, none, none, none⟩⟩]⟩]) ++
          toolResultMessages
            [⟨"call_1", "create_folder", ⟨none, some "x", none, none, none, none⟩⟩,
             ⟨"call_2", "list_files", ⟨some "x", none, none, none, none, none⟩⟩]
            ["Created folder: x", "No files found."])
        [("x", FSEntry.dir)] := by
  refine ⟨⟨by decide, by rfl⟩, ?_⟩
  exact (batch_executes_sequentially_before_next_request 0
    ⟨none, [⟨"call_1", "create_folder", ⟨none, some "x", none, none, none, none⟩⟩,
            ⟨"call_2", "list_files", ⟨some "x", none, none, none, none, none⟩⟩]⟩
    [doneResponse] [] [] ["Created folder: x", "No files found."] [("x", FSEntry.dir)]
    (by decide) (by rfl)).2.2.2

/-- C3: (1) an assistant response with zero tool-call requests ends the loop
immediately with that response's content as the final summary, whatever
further responses the model would have given; (2) whenever the loop
terminates normally, the response it stopped on is the first one with no
tool-call requests (every earlier response carried at least one); (3) there
is no iteration cap: for every `n` there is a successful run that issues
`n + 1` model requests. -/
theorem loop_ends_exactly_on_no_tool_calls :
    (∀ (now : Nat) (resp : AssistantResponse) (rest : List AssistantResponse)
       (msgs : List Message) (fs : FS),
       resp.tool_calls = [] →
       runLoop now (resp :: rest) msgs fs =
         .ok (msgs ++ [resp.toMessage], fs, resp.content)) ∧
    (∀ (now : Nat) (responses : List AssistantResponse) (msgs : List Message) (fs : FS)
       (out : List Message × FS × Option String),
       runLoop now responses msgs fs = .ok out →
       ∃ pre resp post, responses = pre ++ resp :: post ∧ resp.tool_calls = [] ∧
         ∀ r ∈ pre, r.tool_calls ≠ []) ∧
    (∀ (now n : Nat), ∃ out,
       runLoop now (List.replicate n busyResponse ++ [doneResponse]) [] [] = .ok out) := by
  refine ⟨?_, ?_, ?_⟩
  · intro now resp rest msgs fs h
    simp [runLoop, h]
  · intro now responses
    induction responses with
    | nil =>
      intro msgs fs out h
      simp [runLoop] at h
    | cons resp rest ih =>
      intro msgs fs out h
      cases hc : resp.tool_calls with
      | nil =>
        exact ⟨[], resp, rest, by simp, hc, by simp⟩
      | cons tc tcs =>
        have hempty : resp.tool_calls.isEmpty = false := by
          rw [hc]
          simp
        simp only [runLoop, hempty, Bool.false_eq_true, if_false] at h
        rcases hexec : execToolCalls now resp.tool_calls (msgs ++ [resp.toMessage]) fs with
          e | ⟨msgs'', fs'⟩
        · rw [hexec] at h
          simp at h
        · rw [hexec] at h
          obtain ⟨pre, r0, post, hsplit, hr0, hpre⟩ := ih msgs'' fs' out h
          refine ⟨resp :: pre, r0, post, by rw [hsplit]; rfl, hr0, ?_⟩
          intro r hr
          rcases List.mem_cons.mp hr with h' | h'
          · rw [h', hc]
            simp
          · exact hpre r h' 
  · intro now n
    exact runLoop_busy_chain now n []

theorem loop_ends_exactly_on_no_tool_calls_witness :
    doneResponse.tool_calls = [] ∧
    runLoop 0 [doneResponse] [] [] =
      .ok ([doneResponse.toMessage], [], doneResponse.content) := by
  refine ⟨rfl, ?_⟩
  have h := loop_ends_exactly_on_no_tool_calls.1 0 doneResponse [] [] [] rfl
  simpa using h

/-- C9: the process exits with code 1 when the API credential is missing
(before any model interaction, whatever the oracle holds) and when the
entered folder reference cannot be resolved — either the initial input or
the fallback full path; it exits with code 0 on a successfully completed
run (from either confirmation) and on user cancellation at the final
confirmation prompt. -/
theorem exit_code_contract (hasKey : Bool) (fs : FS) (home : String) (pr : Prompts)
    (now : Nat) (responses : List AssistantResponse) :
    (hasKey = false → processExitCode hasKey fs home pr now responses = some 1) ∧
    (hasKey = true → resolvePath fs home pr.input = none →
      processExitCode hasKey fs home pr now responses = some 1) ∧
    (∀ dir, hasKey = true → resolvePath fs home pr.input = some dir →
      isYes pr.confirm = false → existsSync fs pr.fullPath = false →
      processExitCode hasKey fs home pr now responses = some 1) ∧
    (∀ dir out, hasKey = true → resolvePath fs home pr.input = some dir →
      isYes pr.confirm = true → runAgent now responses dir fs = .ok out →
      processExitCode hasKey fs home pr now responses = some 0) ∧
    (∀ dir out, hasKey = true → resolvePath fs home pr.input = some dir →
      isYes pr.confirm = false → existsSync fs pr.fullPath = true →
      isYes pr.confirmFull = true → runAgent now responses pr.fullPath fs = .ok out →
      processExitCode hasKey fs home pr now responses = some 0) ∧
    (∀ dir, hasKey = true → resolvePath fs home pr.input = some dir →
      isYes pr.confirm = false → existsSync fs pr.fullPath = true →
      isYes pr.confirmFull = false →
      processExitCode hasKey fs home pr now responses = some 0) := by
  refine ⟨?_, ?_, ?_, ?_, ?_, ?_⟩
  · intro h
    simp [processExitCode, program, h]
  · intro hk h
    simp [processExitCode, program, mainFlow, hk, h]
  · intro dir hk h h1 h2
    simp [processExitCode, program, mainFlow, hk, h, h1, h2]
  · intro dir out hk h h1 h2
    simp [processExitCode, program, mainFlow, hk, h, h1, h2]
  · intro dir out hk h h1 h2 h3 h4
    simp [processExitCode, program, mainFlow, hk, h, h1, h2, h3, h4]
  · intro dir hk h h1 h2 h3
    simp [processExitCode, program, mainFlow, hk, h, h1, h2, h3]

theorem exit_code_contract_witness :
    resolvePath [("d", FSEntry.dir)] "h" "d" = some "d" ∧
    isYes "no" = false ∧
    existsSync [("d", FSEntry.dir)] "d" = true ∧
    processExitCode true [("d", FSEntry.dir)] "h" ⟨"d", "no", "d", "no"⟩ 0 [] = some 0 := by
  refine ⟨by decide, by decide, by decide, ?_⟩
  exact (exit_code_contract true [("d", FSEntry.dir)] "h" ⟨"d", "no", "d", "no"⟩ 0
    []).2.2.2.2.2 "d" rfl (by decide) (by decide) (by decide) (by decide)
